import Mathlib

/-!
Verification development for the heic_converter_go repository.

The definitions below are a shallow embedding of `src/main.go`:

* Go standard-library string helpers used by the code
  (`strings.Replace(s, ".", "_", 1)`, `filepath.Ext`, `filepath.Base`,
  `strings.ToLower`) are modelled on `List Char`;
* `convertHeic` is modelled as a pure function from a failure-injection
  environment (`HeifEnv`, standing for the opaque libheif / encoder /
  filesystem collaborators) to the observable effects of one worker
  (`ConvertResult`);
* `FindHeicFiles` is modelled as a walk over an explicit filesystem tree
  (`FSTree`), with `broken` nodes standing for entries on which
  `filepath.Walk` reports a traversal error;
* the dispatch of `main` (which inputs produce which job list) is modelled
  by `mainBranch` / `plannedJobs`;
* the concurrency skeleton of `main` (buffered channel `done` of capacity
  `NumCPUs` used as a semaphore, `close(start)` barrier, goroutine launch)
  is modelled as a small transition system `Step` on `PoolState`.
-/

namespace HeicConverter

/-! ## Go string helpers -/

/-- `strings.Replace(s, ".", "_", 1)`: replace the first `.` by `_`. -/
def replFirstDot : List Char → List Char
  | [] => []
  | c :: cs => if c = '.' then '_' :: cs else c :: replFirstDot cs

/-- Character that is neither `.` nor a path separator, used when scanning
for an extension from the end of a path as `filepath.Ext` does. -/
def notDotSlash (c : Char) : Bool := !(decide (c = '.') || decide (c = '/'))

/-- `filepath.Ext`: the suffix beginning at the final dot of the final
slash-separated element, empty when that element has no dot. -/
def goExt (s : List Char) : List Char :=
  match s.reverse.dropWhile notDotSlash with
  | '.' :: _ => '.' :: (s.reverse.takeWhile notDotSlash).reverse
  | _ => []

/-- `strings.ToLower` restricted to ASCII, which is what the repository's
extension comparison relies on. -/
def toLowerList (l : List Char) : List Char := l.map Char.toLower

/-- `filepath.Base`: strip trailing separators, then keep the part after the
last separator; `"."` for the empty path, `"/"` for an all-separator path. -/
def goBase (s : List Char) : List Char :=
  if s = [] then ['.']
  else
    let s1 := (s.reverse.dropWhile (fun c => decide (c = '/'))).reverse
    if s1 = [] then ['/']
    else (s1.reverse.takeWhile (fun c => decide (c ≠ '/'))).reverse

/-- The test applied by `FindHeicFiles` to each visited entry:
`filepath.Ext(strings.ToLower(info.Name())) == ".heic"`. -/
def isHeicName (n : String) : Bool := decide (goExt (toLowerList n.data) = ".heic".data)

/-! ## The conversion worker `convertHeic` -/

/-- Failure injection for the opaque collaborators of one job: libheif
context creation, file read, primary-handle retrieval, decode, `GetImage`,
the JPEG/PNG encoder, `os.WriteFile` and `os.Remove`. -/
structure HeifEnv where
  newContextOk : Bool
  readOk : Bool
  primaryHandleOk : Bool
  decodeOk : Bool
  getImageOk : Bool
  encodeOk : Bool
  writeOk : Bool
  removeOk : Bool
deriving DecidableEq, Repr

/-- Environment in which every collaborator succeeds. -/
def allOk : HeifEnv := ⟨true, true, true, true, true, true, true, true⟩

/-- The diagnostics `convertHeic`, `saveJPEG` and `savePNG` print. -/
inductive Report where
  | contextErr
  | readErr
  | handleErr
  | decodeErr
  | getImageErr
  | encodeErr
  | writeErr
  | unsupportedFormat (f : String)
  | saved (path : String)
  | deleted
  | deleteFailed
deriving DecidableEq, Repr

/-- Observable effects of one `convertHeic` call: printed reports, the
output file written (if any), whether the source file was deleted, and
whether the worker executed the `<-done` slot release on line 128. -/
structure ConvertResult where
  reports : List Report
  outputWritten : Option String
  sourceDeleted : Bool
  slotReleased : Bool
deriving DecidableEq, Repr

/-- Output-filename computation of `convertHeic` (lines 103-107):
`strings.Replace(file, ".", "_", 1)` by default; when an output path is
given, `outputPath + strings.Replace(filepath.Base(file), ".", "_", 1)`
by plain string concatenation. -/
def outFilenameChars (file out : List Char) : List Char :=
  if out = [] then replFirstDot file
  else out ++ replFirstDot (goBase file)

/-- `saveJPEG`: encode, then write; on either failure only a diagnostic is
printed and no file is produced. -/
def saveJPEG (env : HeifEnv) (filename : String) (quality : Nat) :
    List Report × Option String :=
  if env.encodeOk = false then ([.encodeErr], none)
  else if env.writeOk = false then ([.writeErr], none)
  else ([.saved filename], some filename)

/-- `savePNG`: encode, then write; on either failure only a diagnostic is
printed and no file is produced. -/
def savePNG (env : HeifEnv) (filename : String) : List Report × Option String :=
  if env.encodeOk = false then ([.encodeErr], none)
  else if env.writeOk = false then ([.writeErr], none)
  else ([.saved filename], some filename)

/-- `convertHeic` (lines 75-129), minus the `wg`/`start`/`done` plumbing
that the pool model below covers.  The three context/read/handle failures
and the unsupported-format branch are early `return`s: they skip both the
delete block and the `<-done` release.  Decode and `GetImage` failures do
not return: control falls through to the delete block and the release. -/
def convertHeic (file outputPath format : String) (quality : Nat)
    (deleteOriginal : Bool) (env : HeifEnv) : ConvertResult :=
  if env.newContextOk = false then ⟨[.contextErr], none, false, false⟩
  else if env.readOk = false then ⟨[.readErr], none, false, false⟩
  else if env.primaryHandleOk = false then ⟨[.handleErr], none, false, false⟩
  else
    let body : Option (List Report × Option String) :=
      if env.decodeOk = false then some ([.decodeErr], none)
      else if env.getImageOk = false then some ([.getImageErr], none)
      else
        let outFilename : String := ⟨outFilenameChars file.data outputPath.data⟩
        if format = "jpeg" then some (saveJPEG env (outFilename ++ ".jpg") quality)
        else if format = "png" then some (savePNG env (outFilename ++ ".png"))
        else none
    match body with
    | none => ⟨[.unsupportedFormat format], none, false, false⟩
    | some (reps, wrote) =>
      if deleteOriginal then
        if env.removeOk then ⟨reps ++ [.deleted], wrote, true, true⟩
        else ⟨reps ++ [.deleteFailed], wrote, false, true⟩
      else ⟨reps, wrote, false, true⟩

/-! ## The discoverer `FindHeicFiles` -/

/-- A filesystem tree as seen by `filepath.Walk`.  A `broken` node stands
for an entry whose stat fails, so the walk function receives a non-nil
error there (and the repository's callback returns it, aborting the walk). -/
inductive FSTree where
  | file (name : String)
  | broken (name : String)
  | dir (name : String) (children : List FSTree)
deriving Repr

/-- Name of the entry, as `info.Name()` reports it. -/
def fsName : FSTree → String
  | .file n => n
  | .broken n => n
  | .dir n _ => n

mutual
/-- One step of `filepath.Walk` as driven by the callback in
`FindHeicFiles` (lines 134-142): visit the entry itself (appending its path
whenever the lower-cased name has extension `.heic` — with no check that the
entry is a regular file), then recurse into children; the first error aborts
the whole walk, returning the paths accumulated so far together with the
error flag. -/
def walkTree (path : String) (t : FSTree) (acc : List String) :
    List String × Bool :=
  match t with
  | .broken _ => (acc, true)
  | .file n => (if isHeicName n then acc ++ [path] else acc, false)
  | .dir n children =>
    let acc1 := if isHeicName n then acc ++ [path] else acc
    walkChildren path children acc1

/-- Walk the children of a directory in order, stopping at the first error. -/
def walkChildren (dirPath : String) (ts : List FSTree) (acc : List String) :
    List String × Bool :=
  match ts with
  | [] => (acc, false)
  | t :: rest =>
    let r := walkTree (dirPath ++ "/" ++ fsName t) t acc
    if r.2 then r else walkChildren dirPath rest r.1
end

/-- `FindHeicFiles` (lines 132-144): walk the tree rooted at the given
directory; return the accumulated paths together with an error flag
(`true` exactly when `filepath.Walk` returned a non-nil error; the partial
path list is returned alongside it, as in the Go code). -/
def FindHeicFiles (t : FSTree) : List String × Bool := walkTree (fsName t) t []

mutual
/-- Whether the tree contains any regular-file entry at all. -/
def hasFileEntry : FSTree → Bool
  | .file _ => true
  | .broken _ => false
  | .dir _ cs => hasFileList cs

/-- Whether any tree in the list contains a regular-file entry. -/
def hasFileList : List FSTree → Bool
  | [] => false
  | t :: ts => hasFileEntry t || hasFileList ts
end

/-! ## Dispatch of `main` -/

/-- The parsed command-line flags. -/
structure Flags where
  inputFile : String
  inputDir : String
  outputPath : String
  format : String
  quality : Nat
  del : Bool
deriving DecidableEq, Repr

/-- Which branch of the `if`/`else if`/`else` chain of `main`
(lines 163-187) runs. -/
inductive MainBranch where
  | singleFile
  | dirMode
  | noInput
deriving DecidableEq, Repr

/-- Branch selection of `main`: `--input_file` is tested first, then
`--input_dir`. -/
def mainBranch (fl : Flags) : MainBranch :=
  if fl.inputFile ≠ "" then .singleFile
  else if fl.inputDir ≠ "" then .dirMode
  else .noInput

/-- The source paths for which `main` launches a `convertHeic` worker:
the single input file, or every path `FindHeicFiles` returned — note the
partial list is used even when `FindHeicFiles` also returned an error
(line 174-184 only prints the error and continues into the launch loop). -/
def plannedJobs (fl : Flags) (t : FSTree) : List String :=
  if fl.inputFile ≠ "" then [fl.inputFile]
  else if fl.inputDir ≠ "" then (FindHeicFiles t).1
  else []

/-! ## The concurrency skeleton of `main`

`main` builds a buffered channel `done` of capacity `NumCPUs` used as a
counting semaphore (`done <- struct{}{}` reserves a slot, `<-done` inside
`convertHeic` releases one), an unbuffered channel `start` closed once as a
start barrier, and a `sync.WaitGroup`.  In single-file mode the launcher
itself reserves the slot and then starts the goroutine; in directory mode
each goroutine reserves its own slot after being started, concurrently with
`close(start)`.  The transition system below models exactly these
interleavings; `rel` records per worker whether its `convertHeic` run
reaches the `<-done` release (its `slotReleased` field) or returns early
without releasing. -/

/-- Per-worker control state. -/
inductive WState where
  | notLaunched
  | launched
  | reserved
  | inBody
  | doneReleased
  | doneLeaked
deriving DecidableEq, Repr

/-- Global state of one invocation: worker states, the number of occupied
semaphore slots (buffered-channel occupancy), and whether `close(start)`
has happened. -/
structure PoolState where
  workers : List WState
  sem : Nat
  started : Bool
deriving DecidableEq, Repr

/-- Interleaving steps of `main` plus its workers, with semaphore capacity
`P = NumCPUs` and `rel i` telling whether worker `i`'s `convertHeic` body
executes the `<-done` release. -/
inductive Step (P : Nat) (rel : List Bool) : PoolState → PoolState → Prop where
  | launch {s : PoolState} (i : Nat) :
      s.workers[i]? = some .notLaunched →
      Step P rel s ⟨s.workers.set i .launched, s.sem, s.started⟩
  | launchReserved {s : PoolState} (i : Nat) :
      s.workers[i]? = some .notLaunched → s.sem < P →
      Step P rel s ⟨s.workers.set i .reserved, s.sem + 1, s.started⟩
  | fire {s : PoolState} :
      s.started = false → (∀ w ∈ s.workers, w ≠ .notLaunched) →
      Step P rel s ⟨s.workers, s.sem, true⟩
  | reserve {s : PoolState} (i : Nat) :
      s.workers[i]? = some .launched → s.sem < P →
      Step P rel s ⟨s.workers.set i .reserved, s.sem + 1, s.started⟩
  | enter {s : PoolState} (i : Nat) :
      s.workers[i]? = some .reserved → s.started = true →
      Step P rel s ⟨s.workers.set i .inBody, s.sem, s.started⟩
  | finishRelease {s : PoolState} (i : Nat) :
      s.workers[i]? = some .inBody → rel[i]? = some true →
      Step P rel s ⟨s.workers.set i .doneReleased, s.sem - 1, s.started⟩
  | finishLeak {s : PoolState} (i : Nat) :
      s.workers[i]? = some .inBody → rel[i]? = some false →
      Step P rel s ⟨s.workers.set i .doneLeaked, s.sem, s.started⟩

/-- Initial state: `n` pending jobs, empty semaphore, barrier not fired. -/
def initPool (n : Nat) : PoolState := ⟨List.replicate n .notLaunched, 0, false⟩

/-- Reachability of a state from the initial state of `rel.length` jobs. -/
def Reaches (P : Nat) (rel : List Bool) (s : PoolState) : Prop :=
  Relation.ReflTransGen (Step P rel) (initPool rel.length) s

/-- Whether a worker state holds an (unreleased) semaphore slot. -/
def hwt (w : WState) : Nat :=
  if w = .reserved ∨ w = .inBody ∨ w = .doneLeaked then 1 else 0

/-- Total number of semaphore slots held by the workers. -/
def holdingL : List WState → Nat
  | [] => 0
  | w :: ws => hwt w + holdingL ws

/-- Number of workers in a given control state. -/
def countW (t : WState) : List WState → Nat
  | [] => 0
  | w :: ws => (if w = t then 1 else 0) + countW t ws

/-- Whether any transition at all is enabled in a state (an executable
over-approximation used to exhibit deadlocks: see `step_enabledAny`). -/
def enabledAny (P : Nat) (s : PoolState) : Bool :=
  s.workers.any (fun w => decide (w = .notLaunched))
  || (!s.started && s.workers.all (fun w => decide (w ≠ .notLaunched)))
  || (s.workers.any (fun w => decide (w = .launched)) && decide (s.sem < P))
  || (s.started && s.workers.any (fun w => decide (w = .reserved)))
  || s.workers.any (fun w => decide (w = .inBody))

/-- Semaphore invariant: the slots held by workers account exactly for the
channel occupancy, which never exceeds the capacity. -/
def Inv (P : Nat) (s : PoolState) : Prop :=
  holdingL s.workers = s.sem ∧ s.sem ≤ P

/-- Barrier invariant: a worker executing the decode/encode body implies the
start barrier has fired. -/
abbrev BodyStarted (s : PoolState) : Prop :=
  ∀ i : Nat, s.workers[i]? = some WState.inBody → s.started = true

/-! ## Spec-side comparison definitions (refinement targets) -/

/-- Modelled from the spec's words, for comparison with `outFilenameChars`:
with no explicit output path the output is derived "in-place next to the
source" by replacing the first extension separator of the source file's
*name* with an underscore (the directory part is kept unchanged). -/
def specInPlaceOutName (file : List Char) : List Char :=
  file.take (file.length - (goBase file).length) ++ replFirstDot (goBase file)

/-- Modelled from the spec's words, for comparison with `outFilenameChars`:
with an explicit output path the transformed base name is *joined under*
that directory, i.e. separated from it by a path separator. -/
def specJoinedOutName (outDir file : List Char) : List Char :=
  outDir ++ '/' :: replFirstDot (goBase file)

/-! ## Helper lemmas -/

theorem hwt_notLaunched : hwt .notLaunched = 0 := by decide

theorem hwt_launched : hwt .launched = 0 := by decide

theorem hwt_reserved : hwt .reserved = 1 := by decide

theorem hwt_inBody : hwt .inBody = 1 := by decide

theorem hwt_doneReleased : hwt .doneReleased = 0 := by decide

theorem hwt_doneLeaked : hwt .doneLeaked = 1 := by decide

/-- Updating one worker's state changes the number of held slots by the
difference of the `hwt` weights. -/
theorem holdingL_set (b : WState) :
    ∀ (l : List WState) (i : Nat) (a : WState), l[i]? = some a →
      holdingL (l.set i b) + hwt a = holdingL l + hwt b := by
  intro l
  induction l with
  | nil => intro i a h; simp at h
  | cons w ws ih =>
    intro i a h
    cases i with
    | zero =>
      simp at h
      subst h
      simp [List.set, holdingL]
      omega
    | succ j =>
      simp only [List.getElem?_cons_succ] at h
      have hj := ih j a h
      simp [List.set, holdingL]
      omega

/-- The number of workers in the body is bounded by the held slots. -/
theorem countW_inBody_le_holdingL : ∀ l : List WState,
    countW .inBody l ≤ holdingL l := by
  intro l
  induction l with
  | nil => simp [countW, holdingL]
  | cons w ws ih =>
    have hw : (if w = WState.inBody then 1 else 0) ≤ hwt w := by
      cases w <;> simp [hwt]
    simp only [countW, holdingL]
    omega

theorem holdingL_replicate (n : Nat) :
    holdingL (List.replicate n .notLaunched) = 0 := by
  induction n with
  | zero => simp [List.replicate, holdingL]
  | succ m ih => simp [List.replicate, holdingL, hwt_notLaunched, ih]

/-- Reading an index after a `set`: the value is the new one or was there. -/
theorem getq_set_cases {α : Type} :
    ∀ (l : List α) (i j : Nat) (b c : α),
      (l.set i b)[j]? = some c → c = b ∨ l[j]? = some c := by
  intro l
  induction l with
  | nil => intro i j b c h; simp [List.set] at h
  | cons w ws ih =>
    intro i j b c h
    cases i with
    | zero =>
      cases j with
      | zero =>
        simp [List.set] at h
        exact Or.inl h.symm
      | succ j2 =>
        simp only [List.set, List.getElem?_cons_succ] at h ⊢
        exact Or.inr h
    | succ i2 =>
      cases j with
      | zero =>
        simp only [List.set, List.getElem?_cons_zero] at h ⊢
        exact Or.inr h
      | succ j2 =>
        simp only [List.set, List.getElem?_cons_succ] at h ⊢
        exact ih i2 j2 b c h

theorem getq_replicate {α : Type} :
    ∀ (n i : Nat) (a c : α), (List.replicate n a)[i]? = some c → c = a := by
  intro n
  induction n with
  | zero => intro i a c h; simp [List.replicate] at h
  | succ m ih =>
    intro i a c h
    cases i with
    | zero =>
      simp [List.replicate] at h
      exact h.symm
    | succ j =>
      simp only [List.replicate, List.getElem?_cons_succ] at h
      exact ih j a c h

theorem any_of_getq {α : Type} (p : α → Bool) :
    ∀ (l : List α) (i : Nat) (a : α),
      l[i]? = some a → p a = true → l.any p = true := by
  intro l
  induction l with
  | nil => intro i a h _; simp at h
  | cons w ws ih =>
    intro i a h hp
    cases i with
    | zero =>
      simp at h
      subst h
      simp [hp]
    | succ j =>
      simp only [List.getElem?_cons_succ] at h
      simp [ih j a h hp]

/-- The semaphore invariant holds initially. -/
theorem inv_init (P n : Nat) : Inv P (initPool n) :=
  ⟨by simp [initPool, holdingL_replicate], Nat.zero_le P⟩

/-- The semaphore invariant is preserved by every step. -/
theorem inv_step {P : Nat} {rel : List Bool} {s s' : PoolState}
    (h : Step P rel s s') (hinv : Inv P s) : Inv P s' := by
  obtain ⟨h1, h2⟩ := hinv
  cases h with
  | launch i hi =>
    have hset := holdingL_set .launched s.workers i .notLaunched hi
    rw [hwt_launched, hwt_notLaunched] at hset
    simp only [Inv]
    omega
  | launchReserved i hi hlt =>
    have hset := holdingL_set .reserved s.workers i .notLaunched hi
    rw [hwt_reserved, hwt_notLaunched] at hset
    simp only [Inv]
    omega
  | fire hst hall =>
    exact ⟨h1, h2⟩
  | reserve i hi hlt =>
    have hset := holdingL_set .reserved s.workers i .launched hi
    rw [hwt_reserved, hwt_launched] at hset
    simp only [Inv]
    omega
  | enter i hi hst =>
    have hset := holdingL_set .inBody s.workers i .reserved hi
    rw [hwt_inBody, hwt_reserved] at hset
    simp only [Inv]
    omega
  | finishRelease i hi hrel =>
    have hset := holdingL_set .doneReleased s.workers i .inBody hi
    rw [hwt_doneReleased, hwt_inBody] at hset
    simp only [Inv]
    omega
  | finishLeak i hi hrel =>
    have hset := holdingL_set .doneLeaked s.workers i .inBody hi
    rw [hwt_doneLeaked, hwt_inBody] at hset
    simp only [Inv]
    omega

/-- The semaphore invariant holds in every reachable state. -/
theorem reaches_inv {P : Nat} {rel : List Bool} {s : PoolState}
    (h : Reaches P rel s) : Inv P s := by
  unfold Reaches at h
  induction h with
  | refl => exact inv_init P rel.length
  | tail _ hbc ih => exact inv_step hbc ih

/-- The barrier invariant is preserved by every step. -/
theorem bodyStarted_step {P : Nat} {rel : List Bool} {s s' : PoolState}
    (h : Step P rel s s') (hb : BodyStarted s) : BodyStarted s' := by
  cases h with
  | launch i hi =>
    intro j hj
    rcases getq_set_cases s.workers i j _ _ hj with hc | hc
    · exact absurd hc (by decide)
    · exact hb j hc
  | launchReserved i hi hlt =>
    intro j hj
    rcases getq_set_cases s.workers i j _ _ hj with hc | hc
    · exact absurd hc (by decide)
    · exact hb j hc
  | fire hst hall =>
    intro j _
    rfl
  | reserve i hi hlt =>
    intro j hj
    rcases getq_set_cases s.workers i j _ _ hj with hc | hc
    · exact absurd hc (by decide)
    · exact hb j hc
  | enter i hi hst =>
    intro j hj
    exact hst
  | finishRelease i hi hrel =>
    intro j hj
    rcases getq_set_cases s.workers i j _ _ hj with hc | hc
    · exact absurd hc (by decide)
    · exact hb j hc
  | finishLeak i hi hrel =>
    intro j hj
    rcases getq_set_cases s.workers i j _ _ hj with hc | hc
    · exact absurd hc (by decide)
    · exact hb j hc

/-- The barrier invariant holds in every reachable state. -/
theorem reaches_bodyStarted {P : Nat} {rel : List Bool} {s : PoolState}
    (h : Reaches P rel s) : BodyStarted s := by
  unfold Reaches at h
  induction h with
  | refl =>
    intro i hi
    exact absurd (getq_replicate rel.length i _ _ hi) (by decide)
  | tail _ hbc ih => exact bodyStarted_step hbc ih

/-- Soundness of `enabledAny`: any possible step means the executable
enabledness check returns `true`; contrapositively, a state on which it
returns `false` is a deadlock. -/
theorem step_enabledAny {P : Nat} {rel : List Bool} {s s' : PoolState}
    (h : Step P rel s s') : enabledAny P s = true := by
  cases h with
  | launch i hi =>
    have ha := any_of_getq (fun w => decide (w = WState.notLaunched))
      s.workers i _ hi (by decide)
    simp [enabledAny, ha]
  | launchReserved i hi hlt =>
    have ha := any_of_getq (fun w => decide (w = WState.notLaunched))
      s.workers i _ hi (by decide)
    simp [enabledAny, ha]
  | fire hst hall =>
    have hallb : s.workers.all (fun w => decide (w ≠ WState.notLaunched)) = true := by
      simp only [List.all_eq_true, decide_eq_true_eq]
      exact hall
    simp only [enabledAny, hst, hallb]
    simp
  | reserve i hi hlt =>
    have ha := any_of_getq (fun w => decide (w = WState.launched))
      s.workers i _ hi (by decide)
    have hb : decide (s.sem < P) = true := by simpa using hlt
    simp [enabledAny, ha, hb]
  | enter i hi hst =>
    have ha := any_of_getq (fun w => decide (w = WState.reserved))
      s.workers i _ hi (by decide)
    simp [enabledAny, ha, hst]
  | finishRelease i hi hrel =>
    have ha := any_of_getq (fun w => decide (w = WState.inBody))
      s.workers i _ hi (by decide)
    simp [enabledAny, ha]
  | finishLeak i hi hrel =>
    have ha := any_of_getq (fun w => decide (w = WState.inBody))
      s.workers i _ hi (by decide)
    simp [enabledAny, ha]

/-- `strings.Replace(s, ".", "_", 1)` acts only inside the part after a
dot-free front segment. -/
theorem replFirstDot_append_no_dot (n : List Char) :
    ∀ d : List Char, '.' ∉ d → replFirstDot (d ++ n) = d ++ replFirstDot n := by
  intro d
  induction d with
  | nil => intro _; simp
  | cons c cs ih =>
    intro hd
    have hc : ¬ (c = '.') := fun h => hd (by simp [h])
    have hd2 : ('.' : Char) ∉ cs := fun h => hd (List.mem_cons_of_mem _ h)
    show replFirstDot (c :: (cs ++ n)) = c :: (cs ++ replFirstDot n)
    simp only [replFirstDot, if_neg hc]
    rw [ih hd2]

/-! ## Concrete reachable executions of the pool -/

/-- Directory mode with one job: the goroutine is launched and the barrier
is fired while the worker has not yet reserved its slot. -/
theorem reaches_fired_unreserved : Reaches 1 [true] ⟨[.launched], 0, true⟩ := by
  have h1 : Step 1 [true] ⟨[.notLaunched], 0, false⟩ ⟨[.launched], 0, false⟩ :=
    Step.launch 0 rfl
  have h2 : Step 1 [true] ⟨[.launched], 0, false⟩ ⟨[.launched], 0, true⟩ :=
    Step.fire rfl (by decide)
  exact Relation.ReflTransGen.tail (Relation.ReflTransGen.tail .refl h1) h2

/-- One job past the barrier, executing its body while holding its slot. -/
theorem reaches_inBody_state : Reaches 1 [true] ⟨[.inBody], 1, true⟩ := by
  have h3 : Step 1 [true] ⟨[.launched], 0, true⟩ ⟨[.reserved], 1, true⟩ :=
    Step.reserve 0 rfl (by decide)
  have h4 : Step 1 [true] ⟨[.reserved], 1, true⟩ ⟨[.inBody], 1, true⟩ :=
    Step.enter 0 rfl rfl
  exact Relation.ReflTransGen.tail (Relation.ReflTransGen.tail reaches_fired_unreserved h3) h4

/-- A completed one-job run whose worker exited through an early-return
path: the job finished but its slot was never given back. -/
theorem reaches_leaked : Reaches 1 [false] ⟨[.doneLeaked], 1, true⟩ := by
  have h1 : Step 1 [false] ⟨[.notLaunched], 0, false⟩ ⟨[.launched], 0, false⟩ :=
    Step.launch 0 rfl
  have h2 : Step 1 [false] ⟨[.launched], 0, false⟩ ⟨[.launched], 0, true⟩ :=
    Step.fire rfl (by decide)
  have h3 : Step 1 [false] ⟨[.launched], 0, true⟩ ⟨[.reserved], 1, true⟩ :=
    Step.reserve 0 rfl (by decide)
  have h4 : Step 1 [false] ⟨[.reserved], 1, true⟩ ⟨[.inBody], 1, true⟩ :=
    Step.enter 0 rfl rfl
  have h5 : Step 1 [false] ⟨[.inBody], 1, true⟩ ⟨[.doneLeaked], 1, true⟩ :=
    Step.finishLeak 0 rfl rfl
  exact .tail (.tail (.tail (.tail (.tail .refl h1) h2) h3) h4) h5

/-- Two jobs, one CPU, both workers on a leaking path (as with an
unsupported output format): the first worker finishes holding the slot and
the second is still waiting to reserve. -/
theorem reaches_stuck :
    Reaches 1 [false, false] ⟨[.doneLeaked, .launched], 1, true⟩ := by
  have h1 : Step 1 [false, false] ⟨[.notLaunched, .notLaunched], 0, false⟩
      ⟨[.launched, .notLaunched], 0, false⟩ :=
    Step.launch 0 rfl
  have h2 : Step 1 [false, false] ⟨[.launched, .notLaunched], 0, false⟩
      ⟨[.launched, .launched], 0, false⟩ :=
    Step.launch 1 rfl
  have h3 : Step 1 [false, false] ⟨[.launched, .launched], 0, false⟩
      ⟨[.launched, .launched], 0, true⟩ :=
    Step.fire rfl (by decide)
  have h4 : Step 1 [false, false] ⟨[.launched, .launched], 0, true⟩
      ⟨[.reserved, .launched], 1, true⟩ :=
    Step.reserve 0 rfl (by decide)
  have h5 : Step 1 [false, false] ⟨[.reserved, .launched], 1, true⟩
      ⟨[.inBody, .launched], 1, true⟩ :=
    Step.enter 0 rfl rfl
  have h6 : Step 1 [false, false] ⟨[.inBody, .launched], 1, true⟩
      ⟨[.doneLeaked, .launched], 1, true⟩ :=
    Step.finishLeak 0 rfl rfl
  exact .tail (.tail (.tail (.tail (.tail (.tail .refl h1) h2) h3) h4) h5) h6

/-! ## The claims -/

/-- C1.  The claim says the concurrency slot is released exactly once on
every exit path of the worker — including the early terminations on
context-creation failure, file-read failure, primary-handle failure and
unsupported output format — so that releases equal jobs at run completion.
The code contradicts this: the `<-done` release on line 128 is not
deferred, and the four `return` statements on lines 82, 87, 93 and 116
skip it.  Each of the four early-exit environments below yields
`slotReleased = false`, and a completed one-job run through such a path
ends with zero releases for one job. -/
theorem c1_early_exits_skip_slot_release :
    (convertHeic "a.heic" "" "jpeg" 80 false { allOk with newContextOk := false }).slotReleased = false ∧
    (convertHeic "a.heic" "" "jpeg" 80 false { allOk with readOk := false }).slotReleased = false ∧
    (convertHeic "a.heic" "" "jpeg" 80 false { allOk with primaryHandleOk := false }).slotReleased = false ∧
    (convertHeic "a.heic" "" "gif" 80 false allOk).slotReleased = false ∧
    Reaches 1 [false] ⟨[.doneLeaked], 1, true⟩ ∧
    countW .doneReleased [.doneLeaked] = 0 :=
  ⟨by decide, by decide, by decide, by decide, reaches_leaked, by decide⟩

/-- C2.  The claim says the source file is deleted only when the conversion
succeeded, and that decode / raster-retrieval / encode / write failures
halt the pipeline before deletion.  The code contradicts this: those four
failure branches only print a diagnostic and fall through to the
`deleteOriginal` block, so the source is removed although no output was
written. -/
theorem c2_source_deleted_despite_failure :
    (convertHeic "a.heic" "" "jpeg" 80 true { allOk with decodeOk := false })
      = ⟨[.decodeErr, .deleted], none, true, true⟩ ∧
    (convertHeic "a.heic" "" "jpeg" 80 true { allOk with getImageOk := false }).sourceDeleted = true ∧
    (convertHeic "a.heic" "" "jpeg" 80 true { allOk with encodeOk := false }).sourceDeleted = true ∧
    (convertHeic "a.heic" "" "jpeg" 80 true { allOk with writeOk := false }).sourceDeleted = true ∧
    (convertHeic "a.heic" "" "jpeg" 80 true { allOk with writeOk := false }).outputWritten = none :=
  ⟨by decide, by decide, by decide, by decide, by decide⟩

/-- C3 counterexample.  The claim says a traversal error aborts the batch
before any worker is launched.  On a directory whose walk fails after one
`.heic` file was found, `FindHeicFiles` reports the error, yet `main` still
plans a worker for the partial list (and only for it: the entry after the
failure was never reached). -/
theorem c3_counterexample_partial_batch_launched :
    (FindHeicFiles (.dir "d" [.file "a.heic", .broken "bad", .file "c.heic"])).2 = true ∧
    plannedJobs ⟨"", "d", "", "jpeg", 80, false⟩
      (.dir "d" [.file "a.heic", .broken "bad", .file "c.heic"]) = ["d/a.heic"] := by
  exact ⟨by decide, by decide⟩

/-- C3 amended.  The walk does fail fast — the first broken entry stops
discovery immediately, so nothing after it is scanned — and the error is
surfaced out of discovery; but `main` merely prints it and still launches
workers on exactly the partial list accumulated before the failure. -/
theorem c3_amended_fail_fast_but_jobs_launched :
    (∀ (pre b : String) (ts : List FSTree) (acc : List String),
        walkChildren pre (.broken b :: ts) acc = (acc, true)) ∧
    (∀ (fl : Flags) (t : FSTree), fl.inputFile = "" → fl.inputDir ≠ "" →
        plannedJobs fl t = (FindHeicFiles t).1) := by
  constructor
  · intro pre b ts acc
    simp [walkChildren, walkTree]
  · intro fl t h1 h2
    simp [plannedJobs, h1, h2]

/-- Witness for the amended C3 at a concrete directory. -/
theorem c3_amended_witness :
    walkChildren "d" [.broken "bad"] ["d/a.heic"] = (["d/a.heic"], true) ∧
    plannedJobs ⟨"", "d", "", "jpeg", 80, false⟩
        (.dir "d" [.file "a.heic", .broken "bad", .file "c.heic"])
      = (FindHeicFiles (.dir "d" [.file "a.heic", .broken "bad", .file "c.heic"])).1 :=
  ⟨c3_amended_fail_fast_but_jobs_launched.1 "d" "bad" [] ["d/a.heic"],
   c3_amended_fail_fast_but_jobs_launched.2 ⟨"", "d", "", "jpeg", 80, false⟩
     (.dir "d" [.file "a.heic", .broken "bad", .file "c.heic"]) rfl (by decide)⟩

/-- C4 counterexample.  The claim says every slot is reserved before its
worker is launched and the barrier fires only after all reservations.  In
directory mode the reservation happens inside the launched goroutine, so
the state in which the barrier has fired while the single worker is
launched but still unreserved (holding no slot: `hwt .launched = 0`) is
reachable. -/
theorem c4_counterexample_barrier_before_reservation :
    Reaches 1 [true] ⟨[.launched], 0, true⟩ ∧
    (PoolState.mk [.launched] 0 true).started = true ∧
    (PoolState.mk [.launched] 0 true).workers[0]? = some .launched ∧
    hwt .launched = 0 :=
  ⟨reaches_fired_unreserved, rfl, rfl, rfl⟩

/-- C4 amended.  In directory mode each slot is reserved inside the
worker's own goroutine after launch, and the barrier may fire while
reservations are still pending; what does hold is that no worker is ever
inside its post-barrier body unless the barrier has fired (and, by
construction of the transitions, unless its own slot is reserved). -/
theorem c4_amended_body_requires_barrier (P : Nat) (rel : List Bool)
    (s : PoolState) (h : Reaches P rel s) (i : Nat)
    (hi : s.workers[i]? = some WState.inBody) : s.started = true :=
  reaches_bodyStarted h i hi

/-- Witness for the amended C4 at a concrete reachable state. -/
theorem c4_amended_witness : (PoolState.mk [.inBody] 1 true).started = true :=
  c4_amended_body_requires_barrier 1 [true] ⟨[.inBody], 1, true⟩
    reaches_inBody_state 0 rfl

/-- C5.  The claim (and the function's own doc comment, "Finds all HEIC
files") says only files are returned.  The walk callback never checks
`info.IsDir()`, so on a tree that contains no regular file at all — only a
subdirectory named `sub.heic` — the discoverer still returns that
directory's path. -/
theorem c5_directory_entry_reported_as_heic_file :
    hasFileEntry (.dir "root" [.dir "sub.heic" []]) = false ∧
    FindHeicFiles (.dir "root" [.dir "sub.heic" []]) = (["root/sub.heic"], false) :=
  ⟨by decide, by decide⟩

/-- C6 counterexample.  The claim says the derived output name replaces the
first extension separator of the source file's *name*, leaving the file in
place next to the source.  The code replaces the first `.` of the whole
path string, so a `.` in the directory part is hit instead: for
`a.b/c.heic` the code produces `a_b/c.heic` (a different directory), not
the in-place `a.b/c_heic`. -/
theorem c6_counterexample_dotted_directory :
    outFilenameChars "a.b/c.heic".data [] = "a_b/c.heic".data ∧
    specInPlaceOutName "a.b/c.heic".data = "a.b/c_heic".data ∧
    outFilenameChars "a.b/c.heic".data [] ≠ specInPlaceOutName "a.b/c.heic".data :=
  ⟨by decide, by decide, by decide⟩

/-- C6 amended.  The code replaces the first `.` of the entire source path;
whenever the part of the path before the file name contains no `.` — the
common case — this coincides with the claimed rule: the output is the
directory part unchanged followed by the name with its first extension
separator replaced. -/
theorem c6_amended_in_place_when_dir_dotfree (d n : List Char)
    (hd : '.' ∉ d) : outFilenameChars (d ++ n) [] = d ++ replFirstDot n := by
  simp [outFilenameChars, replFirstDot_append_no_dot n d hd]

/-- Witness for the amended C6 at a concrete path. -/
theorem c6_amended_witness :
    outFilenameChars ("ab/".data ++ "c.heic".data) [] = "ab/".data ++ replFirstDot "c.heic".data :=
  c6_amended_in_place_when_dir_dotfree "ab/".data "c.heic".data (by decide)

/-- C7 counterexample.  The claim says the transformed base name is joined
*under* the explicit output directory.  The code concatenates the strings
with no separator: with output path `out` and source `a/img.heic` it
produces `outimg_heic`, not `out/img_heic`. -/
theorem c7_counterexample_no_separator_joined :
    outFilenameChars "a/img.heic".data "out".data = "outimg_heic".data ∧
    specJoinedOutName "out".data "a/img.heic".data = "out/img_heic".data ∧
    outFilenameChars "a/img.heic".data "out".data ≠ specJoinedOutName "out".data "a/img.heic".data :=
  ⟨by decide, by decide, by decide⟩

/-- C7 amended.  With an explicit output path the code produces the output
path string immediately followed by the transformed base name, in single
and batch mode alike; only when the user supplies a trailing separator
does this coincide with joining the base name under the directory. -/
theorem c7_amended_concat_with_trailing_separator (out file : List Char) :
    outFilenameChars file (out ++ ['/']) = specJoinedOutName out file := by
  have hne : ¬ (out ++ ['/'] = []) := by simp
  simp [outFilenameChars, hne, specJoinedOutName]

/-- C8.  In every reachable state of the pool — any job count, any mix of
releasing and leaking workers — the number of workers inside the
decode/encode body (past the barrier and before their slot release) never
exceeds the semaphore capacity `P`. -/
theorem c8_at_most_P_workers_in_body (P : Nat) (rel : List Bool)
    (s : PoolState) (h : Reaches P rel s) :
    countW .inBody s.workers ≤ P := by
  obtain ⟨h1, h2⟩ := reaches_inv h
  have hc := countW_inBody_le_holdingL s.workers
  omega

/-- Witness for C8 at a concrete reachable state. -/
theorem c8_witness : countW .inBody (PoolState.mk [.inBody] 1 true).workers ≤ 1 :=
  c8_at_most_P_workers_in_body 1 [true] ⟨[.inBody], 1, true⟩ reaches_inBody_state

/-- C9.  The claim says an unsupported output format terminates the job
with a reported error and no output file, and that no other job is
affected.  The first two parts hold, but the early `return` also skips the
slot release, so with two jobs and one CPU the leaked slot blocks the
second worker forever: the state below is reachable, its second worker is
still waiting to reserve, and no transition is enabled in it (`enabledAny`
is `false`; by `step_enabledAny` no `Step` exists from it), so the run
never completes. -/
theorem c9_unsupported_format_leaks_slot_and_blocks_peer :
    (convertHeic "a.heic" "" "gif" 80 true allOk)
      = ⟨[.unsupportedFormat "gif"], none, false, false⟩ ∧
    Reaches 1 [false, false] ⟨[.doneLeaked, .launched], 1, true⟩ ∧
    enabledAny 1 ⟨[.doneLeaked, .launched], 1, true⟩ = false ∧
    (PoolState.mk [.doneLeaked, .launched] 1 true).workers[1]? = some .launched :=
  ⟨by decide, reaches_stuck, by decide, rfl⟩

/-- C10.  When both `--input_file` and `--input_dir` are non-empty, `main`
takes the single-file branch: the planned job list is exactly the one input
file and the directory contributes nothing (it is never scanned). -/
theorem c10_input_file_takes_precedence (fl : Flags) (t : FSTree)
    (h1 : fl.inputFile ≠ "") (h2 : fl.inputDir ≠ "") :
    mainBranch fl = .singleFile ∧ plannedJobs fl t = [fl.inputFile] := by
  constructor <;> simp [mainBranch, plannedJobs, h1]

/-- Witness for C10 at concrete flags. -/
theorem c10_witness :
    mainBranch ⟨"in.heic", "d", "", "jpeg", 80, false⟩ = .singleFile ∧
    plannedJobs ⟨"in.heic", "d", "", "jpeg", 80, false⟩ (.dir "d" [.file "x.heic"])
      = ["in.heic"] :=
  c10_input_file_takes_precedence ⟨"in.heic", "d", "", "jpeg", 80, false⟩
    (.dir "d" [.file "x.heic"]) (by decide) (by decide)

end HeicConverter
